import Mathlib

/-!
Shallow embedding of the `rql` filter engine (`src/filtering.go`).

Records are modelled by `FieldVal`: a struct is a list of named fields, a
scalar field holds its canonical string form (the Go code compares all
scalars through their `fmt.Sprintf("%v", ...)` rendering), and an array
field holds the stringified elements (mirroring `getArrayFieldValues`,
which converts every element to a string).  Go pointers are not modelled:
the code transparently dereferences them, so a record type without
pointers exercises the same logic.

The external PostgreSQL parser (`github.com/auxten/postgresql-parser`) is
out of scope of this repository; `ApplyFilter` is parameterized by a
`parse` oracle standing for `parser.Parse` composed with the AST walk that
extracts the WHERE clause and `processWhereNode`.  Likewise the item type
is generic and condition evaluation over items is a parameter `evalC`,
instantiated with the concrete `evaluate` over `FieldVal` records.

Machine floats of `strconv.ParseFloat` are modelled by exact decimal
values (an integer mantissa with a power-of-ten exponent) on the plain
decimal syntax (sign, digits, fraction, exponent); the hex, inf/nan and
underscore forms are omitted.  Go's regexp engine, consulted
only on the final branch of the LIKE matcher, is modelled by an oracle
parameter in the statements that concern it and by a direct interpreter
of the derived wildcard expression in the executable instance.
-/

namespace RQL

/-- FilterOptions of `src/filtering.go`: limit and offset are Go `int`s. -/
structure FilterOptions where
  limit : Int
  offset : Int
deriving DecidableEq, Repr

/-- Result of `src/filtering.go`: filtered items plus the pre-pagination count. -/
structure Result (α : Type) where
  items : List α
  count : Nat
deriving DecidableEq, Repr

/-- DefaultFilterOptions: no limit, no offset. -/
def DefaultFilterOptions : FilterOptions := { limit := 0, offset := 0 }

/-- applyPagination of `src/filtering.go`.  Go slicing `items[offset:]`
panics when `offset` is negative (the `offset > totalItems` guard only
catches overshoot), so the panic case is modelled as `none`. -/
def applyPagination (items : List α) (options : FilterOptions) : Option (List α) :=
  let totalItems := items.length
  let offset := options.offset
  if (totalItems : Int) < offset then some []
  else if offset < 0 then none
  else
    let rest := items.drop offset.toNat
    let limit := options.limit
    if 0 < limit ∧ limit < (rest.length : Int) then some (rest.take limit.toNat)
    else some rest

/-- Condition trees of `src/filtering.go` (the `Condition` interface with its
implementations: And, Or, alwaysTrue, Equal, NotEqual, Like, Comparison and
the four array conditions). -/
inductive Condition where
  | and (left right : Condition)
  | or (left right : Condition)
  | alwaysTrue
  | equal (fld value : String)
  | notEqual (fld value : String)
  | like (fld value : String) (caseInsensitive : Bool)
  | comparison (fld value op : String)
  | anyArrayContains (fld value : String)
  | anyArrayNotContains (fld value : String)
  | anyArrayContainsAny (fld : String) (values : List String)
  | anyArrayNotContainsAny (fld : String) (values : List String)
deriving DecidableEq, Repr

/-- isAlwaysTrueCondition of `src/filtering.go`: a type assertion against
`*alwaysTrueCondition`; `nil` (here `none`) is not of that type. -/
def isAlwaysTrueCond : Option Condition → Bool
  | some Condition.alwaysTrue => true
  | _ => false

/-- Record values reachable by reflection in `getFieldValue` /
`getArrayFieldValues`: scalars carry their canonical `%v` rendering, arrays
carry the per-element renderings, structs carry named fields in declaration
order (Go struct field names are unique, lookups return the first hit). -/
inductive FieldVal where
  | str (s : String)
  | arr (elems : List String)
  | strukt (fields : List (String × FieldVal))

/-- Space-separated concatenation used by Go `fmt` when rendering a
composite value. -/
def sepSpace : List String → String
  | [] => ""
  | [s] => s
  | s :: rest => s ++ " " ++ sepSpace rest

mutual
/-- Rendering `fmt.Sprintf("%v", v)` of a resolved field value: a scalar is
its string, a slice prints as `[e1 e2 ...]`, a struct as `{v1 v2 ...}`. -/
def fmtVal : FieldVal → String
  | .str s => s
  | .arr es => "[" ++ sepSpace es ++ "]"
  | .strukt fs => "\x7b" ++ sepSpace (fmtFields fs) ++ "\x7d"

/-- Renderings of the field values of a struct, in order. -/
def fmtFields : List (String × FieldVal) → List String
  | [] => []
  | (_, v) :: rest => fmtVal v :: fmtFields rest
end

/-- ASCII lower-casing of one character (Go's `strings.ToLower` is full
Unicode; the ASCII fragment is what the repository's field names use). -/
def lowerChar (c : Char) : Char :=
  if 'A' ≤ c && c ≤ 'Z' then Char.ofNat (c.toNat + 32) else c

/-- strings.ToLower, ASCII fragment. -/
def strLower (s : String) : String := String.mk (s.data.map lowerChar)

/-- strings.Split on a one-character separator. -/
def splitOnCharL (sep : Char) : List Char → List (List Char)
  | [] => [[]]
  | c :: t =>
    if c == sep then [] :: splitOnCharL sep t
    else
      match splitOnCharL sep t with
      | [] => [[c]]
      | seg :: rest => (c :: seg) :: rest

/-- Field lookup on a struct: `reflect.Value.FieldByName` (case-sensitive)
followed by `findFieldCaseInsensitive` (first field whose lower-cased name
matches).  Non-structs have no fields. -/
def lookupField (v : FieldVal) (name : String) : Option FieldVal :=
  match v with
  | .strukt fs =>
    match fs.find? (fun p => p.1 == name) with
    | some p => some p.2
    | none =>
      match fs.find? (fun p => strLower p.1 == strLower name) with
      | some p => some p.2
      | none => none
  | _ => none

/-- Whether a value is a struct (`reflect.Kind == Struct`). -/
def isStructVal : FieldVal → Bool
  | .strukt _ => true
  | _ => false

/-- Path walk of `getFieldValue`: every segment but the last must resolve to
a struct; the last segment is rendered with `%v`. -/
def getFieldValueParts : FieldVal → List String → Option String
  | _, [] => none
  | v, [p] =>
    match lookupField v p with
    | some f => some (fmtVal f)
    | none => none
  | v, p :: q :: rest =>
    match lookupField v p with
    | some f => if isStructVal f then getFieldValueParts f (q :: rest) else none
    | none => none

/-- The `strings.Split(fieldPath, ".")` of the two resolvers. -/
def splitPath (fieldPath : String) : List String :=
  (splitOnCharL '.' fieldPath.data).map String.mk

/-- getFieldValue of `src/filtering.go`: `(value, found)` becomes
`Option String`.  A non-struct root resolves nothing. -/
def getFieldValue (item : FieldVal) (fieldPath : String) : Option String :=
  if isStructVal item then getFieldValueParts item (splitPath fieldPath)
  else none

/-- Path walk of `getArrayFieldValues`: intermediate segments must be
structs, the final segment must be an array/slice field. -/
def getArrayFieldValuesParts : FieldVal → List String → Option (List String)
  | _, [] => none
  | v, [p] =>
    match lookupField v p with
    | some (.arr es) => some es
    | _ => none
  | v, p :: q :: rest =>
    match lookupField v p with
    | some f => if isStructVal f then getArrayFieldValuesParts f (q :: rest) else none
    | none => none

/-- getArrayFieldValues of `src/filtering.go`: resolves a dot path to an
array/slice field, returning the stringified elements. -/
def getArrayFieldValues (item : FieldVal) (fieldPath : String) : Option (List String) :=
  if isStructVal item then getArrayFieldValuesParts item (splitPath fieldPath)
  else none

/-- strings.HasPrefix on character lists. -/
def listStartsWith (l p : List Char) : Bool := p.isPrefixOf l

/-- strings.HasSuffix on character lists: the last `p.length` characters
equal `p` (false when `p` is longer than `l`, since lengths then differ). -/
def listEndsWith (l p : List Char) : Bool := l.drop (l.length - p.length) == p

/-- strings.Contains on character lists: some suffix of `l` starts with
`sub`. -/
def listHasSub : List Char → List Char → Bool
  | [], sub => sub.isEmpty
  | c :: t, sub => sub.isPrefixOf (c :: t) || listHasSub t sub

/-- strings.Trim with a one-character cutset: remove every leading and
trailing occurrence of `c`. -/
def listTrimChar (l : List Char) (c : Char) : List Char :=
  ((l.dropWhile (· == c)).reverse.dropWhile (· == c)).reverse

/-- strings.TrimSuffix: remove one trailing occurrence of `p`, if present. -/
def listTrimSufOne (l p : List Char) : List Char :=
  if listEndsWith l p then l.take (l.length - p.length) else l

/-- strings.TrimPrefix: remove one leading occurrence of `p`, if present. -/
def listTrimPreOne (l p : List Char) : List Char :=
  if listStartsWith l p then l.drop p.length else l

/-- strings.Contains on strings. -/
def strHasSub (s sub : String) : Bool := listHasSub s.data sub.data

/-- strings.HasPrefix on strings. -/
def strStarts (s p : String) : Bool := listStartsWith s.data p.data

/-- strings.HasSuffix on strings. -/
def strEnds (s p : String) : Bool := listEndsWith s.data p.data

/-- strings.Trim with a one-character cutset, on strings. -/
def strTrimChar (s : String) (c : Char) : String := String.mk (listTrimChar s.data c)

/-- Go `unicode.IsSpace` on the ASCII range, used by `strings.TrimSpace`. -/
def isGoSpace (c : Char) : Bool :=
  c == ' ' || c == '\t' || c == '\n' || c == '\x0b' || c == '\x0c' || c == '\r'

/-- strings.TrimSpace (ASCII whitespace fragment). -/
def listTrimSpace (l : List Char) : List Char :=
  ((l.dropWhile isGoSpace).reverse.dropWhile isGoSpace).reverse

/-- Go byte-wise lexicographic `<` on strings.  UTF-8 byte order agrees
with code-point order, so comparing `Char` sequences is faithful. -/
def listLtB : List Char → List Char → Bool
  | [], [] => false
  | [], _ :: _ => true
  | _ :: _, [] => false
  | a :: as, b :: bs => if a < b then true else if b < a then false else listLtB as bs

/-- Go string `<` comparison. -/
def strLtB (a b : String) : Bool := listLtB a.data b.data

/-- Numeric value of a digit run. -/
def digitsVal (ds : List Char) : Nat :=
  ds.foldl (fun acc c => acc * 10 + (c.toNat - 48)) 0

/-- An exact decimal value `mantissa * 10 ^ exp10`. -/
structure DecNum where
  mantissa : Int
  exp10 : Int
deriving DecidableEq, Repr

/-- Exact order on decimal values: scale the side with the larger exponent
down to the common one and compare the integer mantissas. -/
def decNumLt (a b : DecNum) : Bool :=
  if b.exp10 ≤ a.exp10 then
    a.mantissa * (10 : Int) ^ (a.exp10 - b.exp10).toNat < b.mantissa
  else
    a.mantissa < b.mantissa * (10 : Int) ^ (b.exp10 - a.exp10).toNat

/-- strconv.ParseFloat of `src/filtering.go`, modelled on the plain decimal
syntax `[+-] digits [. digits] [(e|E) [+-] digits]` (digits required on at
least one side of the dot, the whole string consumed) with exact decimal
values; the hex float, inf/nan and digit-separator forms, and float64
rounding, are omitted. -/
def parseFloatModel (s : String) : Option DecNum :=
  let cs := s.data
  let sgn : Int := match cs with
    | '-' :: _ => -1
    | _ => 1
  let cs1 : List Char := match cs with
    | '+' :: r => r
    | '-' :: r => r
    | r => r
  let ip := cs1.takeWhile Char.isDigit
  let cs2 := cs1.drop ip.length
  let hasDot : Bool := match cs2 with
    | '.' :: _ => true
    | _ => false
  let afterDot := if hasDot then cs2.drop 1 else cs2
  let fp := if hasDot then afterDot.takeWhile Char.isDigit else []
  let cs3 := if hasDot then afterDot.drop fp.length else cs2
  if ip.isEmpty && fp.isEmpty then none
  else
    let hasExp : Bool := match cs3 with
      | 'e' :: _ => true
      | 'E' :: _ => true
      | _ => false
    let afterE := if hasExp then cs3.drop 1 else cs3
    let esgn : Int := match afterE with
      | '-' :: _ => -1
      | _ => 1
    let afterEsgn : List Char := match afterE with
      | '+' :: r => r
      | '-' :: r => r
      | r => r
    let ed := if hasExp then afterEsgn.takeWhile Char.isDigit else []
    let cs4 := if hasExp then afterEsgn.drop ed.length else cs3
    if hasExp && ed.isEmpty then none
    else if cs4.isEmpty then
      some ⟨sgn * (digitsVal ip * 10 ^ fp.length + digitsVal fp : Nat),
            esgn * digitsVal ed - fp.length⟩
    else none

/-- Tokens of the derived regular expression: a literal character, `.`
(any one character), `.*` (any run of characters). -/
inductive ReTok where
  | lit (c : Char)
  | one
  | many
deriving DecidableEq, Repr

/-- Anchored interpretation of a token sequence against a text.  Every
round shortens the tokens or the text, so `fuel` equal to the sum of both
lengths plus one never runs out. -/
def tokMatchAux : Nat → List ReTok → List Char → Bool
  | 0, _, _ => false
  | fuel + 1, ts, s =>
    match ts, s with
    | [], s => s.isEmpty
    | .lit _ :: _, [] => false
    | .lit c :: ts, x :: xs => x == c && tokMatchAux fuel ts xs
    | .one :: _, [] => false
    | .one :: ts, _ :: xs => tokMatchAux fuel ts xs
    | .many :: ts, s =>
      tokMatchAux fuel ts s ||
        (match s with
         | [] => false
         | _ :: xs => tokMatchAux fuel (.many :: ts) xs)

/-- Anchored interpretation of a token sequence against a text. -/
def tokMatch (ts : List ReTok) (s : List Char) : Bool :=
  tokMatchAux (ts.length + s.length + 1) ts s

/-- Regexp metacharacters escaped by `LikeCondition.evaluate` before the
wildcard substitution. -/
def regexSpecials : List Char :=
  ['.', '^', '$', '*', '+', '?', '(', ')', '[', ']', '\x7b', '\x7d', '|']

/-- The sequential `strings.ReplaceAll` chain of `LikeCondition.evaluate`:
escape each metacharacter, then `%` to `.*`, then `_` to `.`; the stages
never rewrite each other's output, so a single pass is equivalent. -/
def regexTranslateStep (c : Char) : List Char :=
  if regexSpecials.contains c then ['\\', c]
  else if c == '%' then ['.', '*']
  else if c == '_' then ['.']
  else [c]

/-- The anchored derived expression `"^" + translated + "$"`. -/
def regexTranslate (pattern : List Char) : List Char :=
  '^' :: pattern.flatMap regexTranslateStep ++ ['$']

/-- Lexer for the derived expression body: `\\c` is the literal `c`, `.*`
is a run wildcard, `.` a one-character wildcard; a trailing backslash or a
bare `*` (expressible only through a raw backslash in the original
pattern) fails, modelling a regexp compile error.  (Reading every escape
`\\c` as the literal `c` is an approximation: Go's RE2 rejects some such
escapes and gives others a class meaning, so on patterns containing a raw
backslash this executable oracle may diverge from Go; every theorem about
the regex branch therefore quantifies over the oracle instead of relying
on this instance.) -/
def lexRe : List Char → Option (List ReTok)
  | [] => some []
  | '\\' :: c :: rest =>
    match lexRe rest with
    | some ts => some (.lit c :: ts)
    | none => none
  | '\\' :: [] => none
  | '.' :: '*' :: rest =>
    match lexRe rest with
    | some ts => some (.many :: ts)
    | none => none
  | '.' :: rest =>
    match lexRe rest with
    | some ts => some (.one :: ts)
    | none => none
  | '*' :: _ => none
  | c :: rest =>
    match lexRe rest with
    | some ts => some (.lit c :: ts)
    | none => none

/-- Executable model of `regexp.MatchString` on the derived anchored
expressions: strip the anchors, lex the body, interpret; a body that fails
to lex is a compile error. -/
def reModel (re str : List Char) : Except Unit Bool :=
  let body : List Char :=
    match re with
    | '^' :: rest => if listEndsWith rest ['$'] then rest.take (rest.length - 1) else rest
    | rest => rest
  match lexRe body with
  | some ts => .ok (tokMatch ts str)
  | none => .error ()

/-- LikeCondition.evaluate's matching core (`src/filtering.go` lines
468-523), parameterized by the `regexp.MatchString` oracle `ms` consulted
on the final branch. -/
def likeMatchL (ms : List Char → List Char → Except Unit Bool)
    (str pattern : List Char) : Bool :=
  if listStartsWith pattern ['%'] && listEndsWith pattern ['%'] then
    listHasSub str (listTrimChar pattern '%')
  else if pattern == ['%'] then true
  else if !listStartsWith pattern ['%'] && listEndsWith pattern ['%'] then
    listStartsWith str (listTrimSufOne pattern ['%'])
  else if listStartsWith pattern ['%'] && !listEndsWith pattern ['%'] then
    listEndsWith str (listTrimPreOne pattern ['%'])
  else if !listHasSub pattern ['%'] then str == pattern
  else
    match ms (regexTranslate pattern) str with
    | .error _ => listHasSub str (listTrimChar pattern '%')
    | .ok b => b

/-- The matching core on strings, still parameterized by the oracle. -/
def likeMatchCoreS (ms : List Char → List Char → Except Unit Bool)
    (str pattern : String) : Bool :=
  likeMatchL ms str.data pattern.data

/-- The executable pattern matcher used by `evaluate`. -/
def likeMatch (str pattern : String) : Bool :=
  likeMatchCoreS reModel str pattern

/-- Modelled from the spec: SQL LIKE wildcard semantics used to state the
claim about the matcher — `%` matches any run of zero-or-more characters,
`_` exactly one character, any other character itself; the match is
anchored on both sides.  First list is the pattern, second the text; every
round shortens one of them, so `fuel` equal to the sum of the lengths plus
one never runs out. -/
def sqlLikeSpecAux : Nat → List Char → List Char → Bool
  | 0, _, _ => false
  | fuel + 1, ps, s =>
    match ps, s with
    | [], s => s.isEmpty
    | '%' :: ps, s =>
      sqlLikeSpecAux fuel ps s ||
        (match s with
         | [] => false
         | _ :: xs => sqlLikeSpecAux fuel ('%' :: ps) xs)
    | '_' :: _, [] => false
    | '_' :: ps, _ :: xs => sqlLikeSpecAux fuel ps xs
    | _ :: _, [] => false
    | c :: ps, x :: xs => x == c && sqlLikeSpecAux fuel ps xs

/-- Modelled from the spec: SQL LIKE semantics on strings,
`sqlLikeSpecS pattern text`. -/
def sqlLikeSpecS (pattern text : String) : Bool :=
  sqlLikeSpecAux (pattern.data.length + text.data.length + 1) pattern.data text.data

/-- The `evaluate` methods of the condition types of `src/filtering.go`,
folded into one recursive function over the condition tree. -/
def evaluate : Condition → FieldVal → Bool
  | .and l r, item => evaluate l item && evaluate r item
  | .or l r, item => evaluate l item || evaluate r item
  | .alwaysTrue, _ => true
  | .equal f v, item =>
    match getFieldValue item f with
    | none => false
    | some fieldValue => fieldValue == v
  | .notEqual f v, item =>
    match getFieldValue item f with
    | none => false
    | some fieldValue => fieldValue != v
  | .like f v ci, item =>
    match getFieldValue item f with
    | none => false
    | some fieldValue =>
      let str := if ci then strLower fieldValue else fieldValue
      let pattern := if ci then strLower v else v
      likeMatch str pattern
  | .comparison f v op, item =>
    match getFieldValue item f with
    | none => false
    | some fieldValue =>
      match parseFloatModel fieldValue, parseFloatModel v with
      | some fieldNum, some valueNum =>
        if op == ">" then decNumLt valueNum fieldNum
        else if op == ">=" then !decNumLt fieldNum valueNum
        else if op == "<" then decNumLt fieldNum valueNum
        else if op == "<=" then !decNumLt valueNum fieldNum
        else false
      | _, _ =>
        if op == ">" then strLtB v fieldValue
        else if op == ">=" then !strLtB fieldValue v
        else if op == "<" then strLtB fieldValue v
        else if op == "<=" then !strLtB v fieldValue
        else false
  | .anyArrayContains f v, item =>
    match getArrayFieldValues item f with
    | none => false
    | some vs => if vs.length = 0 then false else vs.contains v
  | .anyArrayNotContains f v, item =>
    match getArrayFieldValues item f with
    | none => false
    | some vs => if vs.length = 0 then true else !vs.contains v
  | .anyArrayContainsAny f values, item =>
    match getArrayFieldValues item f with
    | none => false
    | some vs => if vs.length = 0 then false else vs.any (fun e => values.contains e)
  | .anyArrayNotContainsAny f values, item =>
    match getArrayFieldValues item f with
    | none => false
    | some vs => if vs.length = 0 then true else vs.all (fun e => !values.contains e)

/-- Go regexp `\w`: ASCII word character. -/
def isWordChar (c : Char) : Bool := c.isAlphanum || c == '_'

/-- Character class `[\w\.]` of the ANY field captures. -/
def isFieldChar (c : Char) : Bool := isWordChar c || c == '.'

/-- Go regexp `\s`: ASCII whitespace. -/
def isSpaceChar (c : Char) : Bool :=
  c == ' ' || c == '\t' || c == '\n' || c == '\x0c' || c == '\r'

/-- A recognized occurrence of an ANY pattern: consumed length and the
captured field, operator and value text. -/
structure AnyMatch where
  len : Nat
  fld : String
  op : String
  valueText : String
deriving DecidableEq, Repr

/-- Anchored match of `ANY\(([\w\.]+)\)\s*(=|!=)\s*('[^']+'|\w+)` at the
head of `cs`.  Each capture class excludes its follow-up character, so the
greedy runs are exact; the alternations are leftmost-first as in Go's
regexp.  The quoted alternative keeps its quotes in the capture. -/
def matchSimpleAnyAt (cs : List Char) : Option AnyMatch :=
  match cs with
  | 'A' :: 'N' :: 'Y' :: '(' :: rest =>
    let fld := rest.takeWhile isFieldChar
    if fld.isEmpty then none
    else
      match rest.drop fld.length with
      | ')' :: rest2 =>
        let ws1 := rest2.takeWhile isSpaceChar
        let rest3 := rest2.drop ws1.length
        let opLen : Option (String × Nat) :=
          match rest3 with
          | '=' :: _ => some ("=", 1)
          | '!' :: '=' :: _ => some ("!=", 2)
          | _ => none
        match opLen with
        | none => none
        | some (op, olen) =>
          let rest4 := rest3.drop olen
          let ws2 := rest4.takeWhile isSpaceChar
          let rest5 := rest4.drop ws2.length
          match rest5 with
          | '\x27' :: r =>
            let inner := r.takeWhile (fun c => c != '\x27')
            if inner.isEmpty then none
            else
              match r.drop inner.length with
              | '\x27' :: _ =>
                let vlen := inner.length + 2
                some ⟨4 + fld.length + 1 + ws1.length + olen + ws2.length + vlen,
                      String.mk fld, op, String.mk ('\x27' :: inner ++ ['\x27'])⟩
              | _ => none
          | _ =>
            let w := rest5.takeWhile isWordChar
            if w.isEmpty then none
            else
              some ⟨4 + fld.length + 1 + ws1.length + olen + ws2.length + w.length,
                    String.mk fld, op, String.mk w⟩
      | _ => none
  | _ => none

/-- Anchored match of `ANY\(([\w\.]+)\)\s*(=|!=)\s*ANY\(([^)]*)\)` at the
head of `cs`.  The values capture is the raw text between the second pair
of parentheses. -/
def matchAnyAnyAt (cs : List Char) : Option AnyMatch :=
  match cs with
  | 'A' :: 'N' :: 'Y' :: '(' :: rest =>
    let fld := rest.takeWhile isFieldChar
    if fld.isEmpty then none
    else
      match rest.drop fld.length with
      | ')' :: rest2 =>
        let ws1 := rest2.takeWhile isSpaceChar
        let rest3 := rest2.drop ws1.length
        let opLen : Option (String × Nat) :=
          match rest3 with
          | '=' :: _ => some ("=", 1)
          | '!' :: '=' :: _ => some ("!=", 2)
          | _ => none
        match opLen with
        | none => none
        | some (op, olen) =>
          let rest4 := rest3.drop olen
          let ws2 := rest4.takeWhile isSpaceChar
          let rest5 := rest4.drop ws2.length
          match rest5 with
          | 'A' :: 'N' :: 'Y' :: '(' :: r =>
            let inner := r.takeWhile (fun c => c != ')')
            match r.drop inner.length with
            | ')' :: _ =>
              some ⟨4 + fld.length + 1 + ws1.length + olen + ws2.length +
                      4 + inner.length + 1,
                    String.mk fld, op, String.mk inner⟩
            | _ => none
          | _ => none
      | _ => none
  | _ => none

/-- The full text of a match: the `len` characters it consumed. -/
def matchFullText (cs : List Char) (m : AnyMatch) : String :=
  String.mk (cs.take m.len)

/-- `FindAllStringSubmatch(..., -1)`: scan left to right, record each
leftmost match together with its full text, resume after it.  `fuel`
bounds the scan by the text length. -/
def findAllAux (matchAt : List Char → Option AnyMatch) :
    Nat → List Char → List (String × AnyMatch)
  | 0, _ => []
  | _ + 1, [] => []
  | fuel + 1, c :: t =>
    match matchAt (c :: t) with
    | some m =>
      (matchFullText (c :: t) m, m) :: findAllAux matchAt fuel ((c :: t).drop m.len)
    | none => findAllAux matchAt fuel t

/-- All matches of an ANY pattern in a string. -/
def findAllMatches (matchAt : List Char → Option AnyMatch) (s : String) :
    List (String × AnyMatch) :=
  findAllAux matchAt (s.data.length + 1) s.data

/-- strings.Replace with count 1 on character lists: splice `new` over the
first occurrence of `old`. -/
def replaceFirstL (old new : List Char) : List Char → List Char
  | [] => []
  | c :: t =>
    if old.isPrefixOf (c :: t) then new ++ (c :: t).drop old.length
    else c :: replaceFirstL old new t

/-- strings.Replace with count 1: replace the first occurrence of `old`. -/
def replaceFirst (s old new : String) : String :=
  String.mk (replaceFirstL old.data new.data s.data)

/-- The custom `bufio.Scanner` split function of `parseAnyValues`, run over
a fully buffered string: skip spaces, tabs and commas; a quoted token is
the run up to the closing quote (or the rest of the input when unclosed);
an unquoted token is the run up to the next comma.  `fuel` bounds the scan
by the input length; every round consumes at least one character. -/
def scanAnyTokens : Nat → List Char → List String
  | 0, _ => []
  | fuel + 1, cs =>
    let rest := cs.dropWhile (fun c => c == ' ' || c == '\t' || c == ',')
    match rest with
    | [] => []
    | '\x27' :: r =>
      let inner := r.takeWhile (fun c => c != '\x27')
      String.mk inner :: scanAnyTokens fuel (r.drop (inner.length + 1))
    | c :: t =>
      let tok := (c :: t).takeWhile (fun x => x != ',')
      String.mk tok :: scanAnyTokens fuel ((c :: t).drop tok.length)

/-- parseAnyValues of `src/filtering.go`: scan the comma-separated values,
trimming whitespace and dropping empties; when the scanner yields nothing,
fall back to a plain comma split with quote stripping.  In the fallback,
the quote-stripping slice `v[1 : len(v)-1]` is taken whenever the trimmed
segment both starts and ends with a quote; when that segment is the
one-character string `'` the slice bounds are invalid and Go panics
(reachable, e.g. through the filter `ANY(f) = ANY(')`), which is modelled
as `none`. -/
def parseAnyValues (valuesStr : String) : Option (List String) :=
  let toks := scanAnyTokens (valuesStr.data.length + 1) valuesStr.data
  let values := (toks.map (fun t => String.mk (listTrimSpace t.data))).filter
    (fun v => v != "")
  if values.isEmpty then
    (splitOnCharL ',' valuesStr.data).foldl
      (fun acc v0 =>
        match acc with
        | none => none
        | some vs =>
          let v := listTrimSpace v0
          if listStartsWith v ['\x27'] && listEndsWith v ['\x27'] then
            if v.length < 2 then none
            else
              let v2 := String.mk ((v.drop 1).take (v.length - 2))
              if v2 != "" then some (vs ++ [v2]) else some vs
          else
            let v2 := String.mk v
            if v2 != "" then some (vs ++ [v2]) else some vs)
      (some [])
  else some values

/-- preprocessAnyOperator of `src/filtering.go`: find the
`ANY(field) = ANY(...)` occurrences in the original text, then the simple
`ANY(field) = value` occurrences in the already-rewritten text; each match
is recorded as an array condition and its full text replaced (first
occurrence) by the placeholder `true`.  The Go function's error result is
always `nil`; its only failure mode is the `parseAnyValues` panic, which
propagates here as `none`.  (The quote stripping of the simple-match loop
cannot panic: a quoted capture has at least three characters.) -/
def preprocessAnyOperator (filter : String) : Option (String × List Condition) :=
  let anyAnyMatches := findAllMatches matchAnyAnyAt filter
  let step1 : Option (String × List Condition) := anyAnyMatches.foldl
    (fun acc fm =>
      match acc with
      | none => none
      | some (flt, conds) =>
        let m := fm.2
        match parseAnyValues m.valueText with
        | none => none
        | some values =>
          let condition : Condition :=
            if m.op == "=" then .anyArrayContainsAny m.fld values
            else .anyArrayNotContainsAny m.fld values
          some (replaceFirst flt fm.1 "true", conds ++ [condition]))
    (some (filter, []))
  match step1 with
  | none => none
  | some s1 =>
  let simpleMatches := findAllMatches matchSimpleAnyAt s1.1
  some (simpleMatches.foldl
    (fun (acc : String × List Condition) fm =>
      let m := fm.2
      let vt := m.valueText.data
      let valueStr :=
        if listStartsWith vt ['\x27'] && listEndsWith vt ['\x27'] then
          String.mk ((vt.drop 1).take (vt.length - 2))
        else m.valueText
      let condition : Condition :=
        if m.op == "=" then .anyArrayContains m.fld valueStr
        else .anyArrayNotContains m.fld valueStr
      (replaceFirst acc.1 fm.1 "true", acc.2 ++ [condition]))
    s1)

/-- Lines 112-115 of `src/filtering.go`: drop the parsed root when the
whole preprocessed filter is a bare placeholder and ANY conditions were
extracted. -/
def resetRootCondition (raw : String) (anyConditions : List Condition)
    (parsedRoot : Condition) : Option Condition :=
  if (raw == "1=1" || raw == "true") && 0 < anyConditions.length then none
  else some parsedRoot

/-- Lines 112-170 of `src/filtering.go`: reset the parsed root when the
whole filter was replaced by placeholders, then combine the parsed root
with the side-recorded ANY conditions.  `raw` is the preprocessed filter
text after the percent-encoding round trip (an identity), `parsedRoot` the
condition the SQL parser and visitor produced for it.  In the
regular-conditions branch the reset cannot have fired (it requires `raw`
to be a bare placeholder, excluded by the first branch), so
`gfv.rootCondition` there is `parsedRoot` itself. -/
def buildFinalCondition (raw : String) (anyConditions : List Condition)
    (parsedRoot : Condition) : Option Condition :=
  let rootCondition : Option Condition := resetRootCondition raw anyConditions parsedRoot
  if raw == "true" || raw == "1=1" || isAlwaysTrueCond rootCondition then
    match anyConditions with
    | [] => some Condition.alwaysTrue
    | a :: rest => some (rest.foldl Condition.and a)
  else if 0 < anyConditions.length then
    let anyCondition : Condition :=
      match anyConditions with
      | [] => Condition.alwaysTrue
      | a :: rest => rest.foldl Condition.and a
    if strHasSub raw " AND " then some (.and anyCondition parsedRoot)
    else if strHasSub raw " OR " then some (.or anyCondition parsedRoot)
    else some anyCondition
  else rootCondition

/-- ApplyFilter of `src/filtering.go`, generic over the item type.
`evalC` stands for the reflection-based `Condition.evaluate` over items
(instantiated with `evaluate` for `FieldVal` records); `parse` models the
external `parser.Parse` on `"SELECT * FROM t WHERE " ++ text` together
with the AST walk that compiles the WHERE clause into a condition.  The
`url.QueryEscape`/`url.QueryUnescape` round trip is the identity and never
errors.  The outer `Option` is a Go panic: the quote-stripping slice in
the preprocessing fallback, or the pagination slice on a negative offset;
parse errors surface as `Except.error` before pagination. -/
def ApplyFilter (evalC : Condition → α → Bool)
    (parse : String → Except String Condition)
    (rawFilters : String) (items : List α) (opts : FilterOptions) :
    Option (Except String (Result α)) :=
  if rawFilters == "" then
    (applyPagination items opts).map (fun its => .ok ⟨its, items.length⟩)
  else
    match preprocessAnyOperator rawFilters with
    | none => none
    | some pre =>
      let raw := pre.1
      let anyConditions := pre.2
      match parse raw with
      | .error e => some (.error e)
      | .ok parsedRoot =>
        let finalCondition := buildFinalCondition raw anyConditions parsedRoot
        let filteredItems := items.filter (fun it =>
          match finalCondition with
          | none => true
          | some c => evalC c it)
        (applyPagination filteredItems opts).map
          (fun its => .ok ⟨its, filteredItems.length⟩)

/-- Pagination never lengthens the list. -/
theorem applyPagination_length_le {α : Type} {items out : List α} {opts : FilterOptions}
    (h : applyPagination items opts = some out) : out.length ≤ items.length := by
  simp only [applyPagination] at h
  split at h
  · injection h with h
    subst h
    simp
  · split at h
    · exact Option.noConfusion h
    · split at h <;> (injection h with h; subst h)
      · simp only [List.length_take, List.length_drop]
        omega
      · simp [List.length_drop]

/-- The common shape of both ApplyFilter return sites: paginating a list
and pairing it with that list's length keeps the count at least the item
count. -/
theorem pagination_ok_count_ge {α : Type} {X : List α} {opts : FilterOptions}
    {res : Result α}
    (h : (applyPagination X opts).map
        (fun its => (Except.ok ⟨its, X.length⟩ : Except String (Result α))) =
      some (Except.ok res)) :
    res.items.length ≤ res.count := by
  cases hp : applyPagination X opts with
  | none => rw [hp] at h; exact Option.noConfusion h
  | some out =>
    rw [hp] at h
    simp only [Option.map_some'] at h
    injection h with h
    injection h with h
    subst h
    exact applyPagination_length_le hp

/-- Claim C1: a successful ApplyFilter reports a count at least the number of
returned items, for every filter text, item list and non-negative
pagination options. -/
theorem applyFilter_count_ge_items {α : Type} (evalC : Condition → α → Bool)
    (parse : String → Except String Condition) (rawFilters : String)
    (items : List α) (opts : FilterOptions) (res : Result α)
    (_hl : 0 ≤ opts.limit) (_ho : 0 ≤ opts.offset)
    (h : ApplyFilter evalC parse rawFilters items opts = some (Except.ok res)) :
    res.items.length ≤ res.count := by
  simp only [ApplyFilter] at h
  split at h
  · exact pagination_ok_count_ge h
  · split at h
    · exact Option.noConfusion h
    · split at h
      · injection h with h
        exact Except.noConfusion h
      · exact pagination_ok_count_ge h

/-- Closed instance of the C1 theorem with all hypotheses discharged. -/
theorem applyFilter_count_ge_items_witness :
    ((0 : Int) ≤ 2 ∧ (0 : Int) ≤ 1) ∧
      (Result.mk [20, 30] 3 : Result Nat).items.length ≤
        (Result.mk [20, 30] 3 : Result Nat).count :=
  ⟨⟨by decide, by decide⟩,
    applyFilter_count_ge_items (fun _ _ => true)
      (fun _ => Except.ok Condition.alwaysTrue) "" [10, 20, 30]
      ⟨2, 1⟩ ⟨[20, 30], 3⟩ (by decide) (by decide) rfl⟩

/-- Claim C2: an empty filter text with the default options succeeds regardless
of the parse oracle and the item type, returning every item in order and
a count equal to the input length. -/
theorem applyFilter_empty_filter {α : Type} (evalC : Condition → α → Bool)
    (parse : String → Except String Condition) (items : List α) :
    ApplyFilter evalC parse "" items DefaultFilterOptions =
      some (Except.ok ⟨items, items.length⟩) := by
  simp [ApplyFilter, DefaultFilterOptions, applyPagination]

/-- Claim C8: with non-negative options, pagination drops `offset` leading items
(yielding the empty list when `offset` exceeds the length), then truncates
to `limit` items when `limit > 0` and keeps the whole remainder when
`limit = 0`; it never fails. -/
theorem applyPagination_drops_then_truncates {α : Type} (items : List α)
    (opts : FilterOptions) (hl : 0 ≤ opts.limit) (ho : 0 ≤ opts.offset) :
    applyPagination items opts = some (
      if (items.length : Int) < opts.offset then []
      else if opts.limit = 0 then items.drop opts.offset.toNat
      else (items.drop opts.offset.toNat).take opts.limit.toNat) := by
  simp only [applyPagination]
  by_cases h1 : (items.length : Int) < opts.offset
  · simp [h1]
  · rw [if_neg h1, if_neg h1]
    have h2 : ¬ opts.offset < 0 := by omega
    rw [if_neg h2]
    by_cases h3 : opts.limit = 0
    · have : ¬ (0 < opts.limit ∧ opts.limit < ((items.drop opts.offset.toNat).length : Int)) := by
        omega
      rw [if_neg this, if_pos h3]
    · rw [if_neg h3]
      by_cases h4 : opts.limit < ((items.drop opts.offset.toNat).length : Int)
      · have : 0 < opts.limit ∧ opts.limit < ((items.drop opts.offset.toNat).length : Int) :=
          ⟨by omega, h4⟩
        rw [if_pos this]
      · have hc : ¬ (0 < opts.limit ∧ opts.limit < ((items.drop opts.offset.toNat).length : Int)) := by
          omega
        rw [if_neg hc]
        have hlen : (items.drop opts.offset.toNat).length ≤ opts.limit.toNat := by omega
        rw [List.take_of_length_le hlen]

/-- Closed instance of the C8 theorem with the hypotheses discharged. -/
theorem applyPagination_drops_then_truncates_witness :
    ((0 : Int) ≤ 2 ∧ (0 : Int) ≤ 1) ∧
      applyPagination [1, 2, 3, 4] (⟨2, 1⟩ : FilterOptions) = some [2, 3] :=
  ⟨⟨by decide, by decide⟩,
    (applyPagination_drops_then_truncates [1, 2, 3, 4] ⟨2, 1⟩
      (by decide) (by decide)).trans (by decide)⟩

/-- Claim C7: equality and inequality conditions are false on an unresolved
field; on a resolved field they compare the rendered value with the
literal for equality respectively inequality. -/
theorem equal_notEqual_absence_policy (item : FieldVal) (f v : String) :
    (evaluate (.equal f v) item =
      match getFieldValue item f with
      | none => false
      | some s => s == v) ∧
    (evaluate (.notEqual f v) item =
      match getFieldValue item f with
      | none => false
      | some s => s != v) := by
  constructor <;> (cases hf : getFieldValue item f <;> simp [evaluate, hf])

/-- Claim C6: the four array conditions are false on an unresolved array field;
a present array decides them by membership — `Contains` iff some element
equals the value, `ContainsAny` iff some element equals some listed value,
the `Not` variants being the negations, which on an empty array makes the
`Not` variants true and the positive variants false. -/
theorem array_conditions_policy (item : FieldVal) (f v : String)
    (values : List String) :
    (evaluate (.anyArrayContains f v) item =
      match getArrayFieldValues item f with
      | none => false
      | some es => es.contains v) ∧
    (evaluate (.anyArrayNotContains f v) item =
      match getArrayFieldValues item f with
      | none => false
      | some es => es.isEmpty || !es.contains v) ∧
    (evaluate (.anyArrayContainsAny f values) item =
      match getArrayFieldValues item f with
      | none => false
      | some es => es.any (fun e => values.contains e)) ∧
    (evaluate (.anyArrayNotContainsAny f values) item =
      match getArrayFieldValues item f with
      | none => false
      | some es => es.isEmpty || es.all (fun e => !values.contains e)) := by
  refine ⟨?_, ?_, ?_, ?_⟩ <;>
    (cases hf : getArrayFieldValues item f with
     | none => simp [evaluate, hf]
     | some es => cases es <;> simp [evaluate, hf])

/-- Numeric branch of the ComparisonCondition, as a standalone function of
the operator and the two parsed decimal values. -/
def decCmpB (op : String) (a b : DecNum) : Bool :=
  if op == ">" then decNumLt b a
  else if op == ">=" then !decNumLt a b
  else if op == "<" then decNumLt a b
  else if op == "<=" then !decNumLt b a
  else false

/-- String branch of the ComparisonCondition, as a standalone function of
the operator and the two strings. -/
def strCmpB (op : String) (a b : String) : Bool :=
  if op == ">" then strLtB b a
  else if op == ">=" then !strLtB a b
  else if op == "<" then strLtB a b
  else if op == "<=" then !strLtB b a
  else false

/-- Claim C5: an order comparison first resolves the field (false when absent),
then parses both sides as floating-point numbers; when both parse the
comparison is numeric, otherwise it is lexicographic on the strings. -/
theorem comparison_numeric_first (item : FieldVal) (f v op : String)
    (_hop : op = ">" ∨ op = ">=" ∨ op = "<" ∨ op = "<=") :
    evaluate (.comparison f v op) item =
      match getFieldValue item f with
      | none => false
      | some fieldValue =>
        match parseFloatModel fieldValue, parseFloatModel v with
        | some a, some b => decCmpB op a b
        | some _, none => strCmpB op fieldValue v
        | none, _ => strCmpB op fieldValue v := by
  cases hf : getFieldValue item f with
  | none => simp [evaluate, hf]
  | some fieldValue =>
    cases hp : parseFloatModel fieldValue <;> cases hq : parseFloatModel v <;>
      simp [evaluate, hf, hp, hq, decCmpB, strCmpB]

/-- Closed instance of the C5 theorem: a numeric field compared with `>`
against a numeric literal, hypotheses discharged. -/
theorem comparison_numeric_first_witness :
    (">" = ">" ∨ ">" = ">=" ∨ ">" = "<" ∨ ">" = "<=") ∧
      evaluate (.comparison "Age" "25" ">") (.strukt [("Age", .str "30")]) = true :=
  ⟨Or.inl rfl,
    (comparison_numeric_first (.strukt [("Age", .str "30")]) "Age" "25" ">"
      (Or.inl rfl)).trans (by decide)⟩

/-- Every text contains the empty substring. -/
theorem listHasSub_nil (l : List Char) : listHasSub l [] = true := by
  cases l <;> simp [listHasSub, List.isPrefixOf]

/-- A prefix is in particular an infix. -/
theorem listStartsWith_hasSub {l p : List Char} (h : listStartsWith l p = true) :
    listHasSub l p = true := by
  cases l with
  | nil =>
    cases p with
    | nil => simp [listHasSub]
    | cons c t => simp [listStartsWith, List.isPrefixOf] at h
  | cons c t =>
    simp only [listStartsWith] at h
    simp [listHasSub, h]

/-- A one-character suffix is in particular an infix. -/
theorem listEndsWith_single_hasSub {l : List Char} {c : Char}
    (h : listEndsWith l [c] = true) : listHasSub l [c] = true := by
  induction l with
  | nil => simp [listEndsWith] at h
  | cons x t ih =>
    cases t with
    | nil =>
      simp only [listEndsWith, List.length_cons, List.length_nil,
        Nat.zero_add, Nat.sub_self, List.drop_zero] at h
      have hx : x = c := by
        have := beq_iff_eq.mp h
        injection this
      subst hx
      simp [listHasSub, List.isPrefixOf]
    | cons y u =>
      have e : (x :: y :: u).drop ((x :: y :: u).length - [c].length) =
          (y :: u).drop ((y :: u).length - [c].length) := by
        have e1 : (x :: y :: u).length - [c].length = u.length + 1 := by simp
        have e2 : (y :: u).length - [c].length = u.length := by simp
        rw [e1, e2, List.drop_succ_cons]
      have h' : listEndsWith (y :: u) [c] = true := by
        simp only [listEndsWith] at h ⊢
        rw [← e]
        exact h
      have := ih h'
      simp [listHasSub] at this ⊢
      exact Or.inr this

/-- String equality tested on the character lists agrees with string
equality. -/
theorem beq_data_eq_beq (s t : String) : (s.data == t.data) = (s == t) := by
  by_cases h : s = t
  · subst h; simp
  · have h2 : s.data ≠ t.data := fun hh => h (String.ext hh)
    simp [h, h2]

/-- Claim C4 counterexample: on text `abc` and pattern `a_c` the matcher used by
Like conditions disagrees with SQL wildcard semantics — the pattern has no
`%`, so the code requires exact equality and ignores the `_` wildcard. -/
theorem likeMatch_ne_sql_semantics :
    likeMatch "abc" "a_c" = false ∧ sqlLikeSpecS "a_c" "abc" = true ∧
      likeMatch "abc" "a_c" ≠ sqlLikeSpecS "a_c" "abc" := by
  decide

/-- Claim C4 amended: a pattern that is only `%` matches every text; a pattern
containing no `%` anywhere (even one containing `_`, which is then treated
as a literal character) matches iff it equals the text exactly; a pattern
that starts and ends with `%` matches iff the text contains the pattern
stripped of its leading and trailing `%` runs as a literal substring.  The
universal wildcard reading of `%` and `_` claimed by the spec does not
hold; nothing is asserted here about the remaining patterns, which are
handed to the derived regular expression (stated for an arbitrary
`regexp.MatchString` oracle `ms`). -/
theorem like_matcher_fastpath_semantics
    (ms : List Char → List Char → Except Unit Bool) (str pattern : String) :
    (strHasSub pattern "%" = false →
      likeMatchCoreS ms str pattern = (str == pattern)) ∧
    (likeMatchCoreS ms str "%" = true) ∧
    (strStarts pattern "%" = true → strEnds pattern "%" = true →
      likeMatchCoreS ms str pattern = strHasSub str (strTrimChar pattern '%')) := by
  refine ⟨?_, ?_, ?_⟩
  · intro hnp
    have hnp' : listHasSub pattern.data ['%'] = false := hnp
    have hs : listStartsWith pattern.data ['%'] = false := by
      cases hc : listStartsWith pattern.data ['%'] with
      | false => rfl
      | true => rw [listStartsWith_hasSub hc] at hnp'; exact Bool.noConfusion hnp'
    have he : listEndsWith pattern.data ['%'] = false := by
      cases hc : listEndsWith pattern.data ['%'] with
      | false => rfl
      | true => rw [listEndsWith_single_hasSub hc] at hnp'; exact Bool.noConfusion hnp'
    have hne : (pattern.data == ['%']) = false := by
      cases hc : pattern.data == ['%'] with
      | false => rfl
      | true =>
        have : pattern.data = ['%'] := beq_iff_eq.mp hc
        rw [this] at hs
        exact Bool.noConfusion hs
    show likeMatchL ms str.data pattern.data = (str == pattern)
    rw [likeMatchL]
    rw [hs, he, hne, hnp']
    simp [beq_data_eq_beq]
  · have e : likeMatchCoreS ms str "%" = listHasSub str.data [] := rfl
    rw [e, listHasSub_nil]
  · intro hs he
    have hs' : listStartsWith pattern.data ['%'] = true := hs
    have he' : listEndsWith pattern.data ['%'] = true := he
    show likeMatchL ms str.data pattern.data =
      listHasSub str.data (listTrimChar pattern.data '%')
    rw [likeMatchL, hs', he']
    simp

/-- Closed instance of the C4 amended theorem on the no-wildcard part,
hypothesis discharged. -/
theorem like_matcher_fastpath_semantics_witness :
    strHasSub "a_c" "%" = false ∧
      likeMatchCoreS reModel "abc" "a_c" = ("abc" == "a_c") :=
  ⟨by decide,
    (like_matcher_fastpath_semantics reModel "abc" "a_c").1 (by decide)⟩

/-- Claim C9: the matcher is a total function, and on the regex branch (a
pattern containing `%` but neither starting nor ending with it) an
erroring `regexp.MatchString` oracle degrades the match to a substring
check of the text against the pattern with leading and trailing `%`
stripped, rather than propagating the error. -/
theorem like_matcher_regex_error_fallback
    (ms : List Char → List Char → Except Unit Bool) (str pattern : String)
    (h1 : strHasSub pattern "%" = true)
    (h2 : strStarts pattern "%" = false)
    (h3 : strEnds pattern "%" = false)
    (herr : ms (regexTranslate pattern.data) str.data = Except.error ()) :
    likeMatchCoreS ms str pattern = strHasSub str (strTrimChar pattern '%') := by
  have h1' : listHasSub pattern.data ['%'] = true := h1
  have h2' : listStartsWith pattern.data ['%'] = false := h2
  have h3' : listEndsWith pattern.data ['%'] = false := h3
  have hne : (pattern.data == ['%']) = false := by
    cases hc : pattern.data == ['%'] with
    | false => rfl
    | true =>
      have : pattern.data = ['%'] := beq_iff_eq.mp hc
      rw [this] at h2'
      exact Bool.noConfusion h2'
  show likeMatchL ms str.data pattern.data =
    listHasSub str.data (listTrimChar pattern.data '%')
  rw [likeMatchL, h1', h2', h3', hne, herr]
  simp

/-- Closed instance of the C9 theorem with an always-erroring oracle,
hypotheses discharged. -/
theorem like_matcher_regex_error_fallback_witness :
    (strHasSub "a%b" "%" = true ∧ strStarts "a%b" "%" = false ∧
        strEnds "a%b" "%" = false) ∧
      likeMatchCoreS (fun _ _ => Except.error ()) "xx" "a%b" =
        strHasSub "xx" (strTrimChar "a%b" '%') :=
  ⟨⟨by decide, by decide, by decide⟩,
    like_matcher_regex_error_fallback (fun _ _ => Except.error ()) "xx" "a%b"
      (by decide) (by decide) (by decide) rfl⟩

/-- Claim C3 counterexample: the filter
`ANY(Tags) = 'a AND b' OR Role = 'admin'` contains the substring
`" AND "` (inside the quoted literal), so the claim's heuristic over the
original text demands an And combination; but the code inspects the
preprocessed text `true OR Role = 'admin'`, in which the ANY clause —
and with it the quoted `" AND "` — has been replaced by `true`, and
therefore builds an Or combination. -/
theorem any_heuristic_counterexample :
    preprocessAnyOperator "ANY(Tags) = \x27a AND b\x27 OR Role = \x27admin\x27" =
      some ("true OR Role = \x27admin\x27",
        [Condition.anyArrayContains "Tags" "a AND b"]) ∧
    strHasSub "ANY(Tags) = \x27a AND b\x27 OR Role = \x27admin\x27" " AND " = true ∧
    buildFinalCondition "true OR Role = \x27admin\x27"
        [Condition.anyArrayContains "Tags" "a AND b"]
        (Condition.or Condition.alwaysTrue (Condition.equal "Role" "admin")) =
      some (Condition.or (Condition.anyArrayContains "Tags" "a AND b")
        (Condition.or Condition.alwaysTrue (Condition.equal "Role" "admin"))) ∧
    some (Condition.or (Condition.anyArrayContains "Tags" "a AND b")
        (Condition.or Condition.alwaysTrue (Condition.equal "Role" "admin"))) ≠
      some (Condition.and (Condition.anyArrayContains "Tags" "a AND b")
        (Condition.or Condition.alwaysTrue (Condition.equal "Role" "admin"))) :=
  ⟨by decide, by decide, by decide, by decide⟩

/-- Claim C3 amended: when preprocessing extracted at least one ANY clause and
the remaining parsed condition is a real one (the preprocessed text is not
a bare placeholder and the parsed root is not AlwaysTrue), the combination
heuristic searches the preprocessed text — the original with each ANY
clause replaced by `true` — for `" AND "` and `" OR "`: And on the first
hit, else Or, else the ANY condition alone. -/
theorem any_heuristic_uses_preprocessed_text
    (orig processed : String) (a : Condition) (rest : List Condition)
    (parsedRoot : Condition)
    (_hpre : preprocessAnyOperator orig = some (processed, a :: rest))
    (h1 : processed ≠ "true") (h2 : processed ≠ "1=1")
    (h3 : isAlwaysTrueCond (some parsedRoot) = false) :
    buildFinalCondition processed (a :: rest) parsedRoot =
      (if strHasSub processed " AND " then
        some (.and (rest.foldl Condition.and a) parsedRoot)
      else if strHasSub processed " OR " then
        some (.or (rest.foldl Condition.and a) parsedRoot)
      else some (rest.foldl Condition.and a)) := by
  have e1 : (processed == "true") = false := by simp [h1]
  have e2 : (processed == "1=1") = false := by simp [h2]
  simp [buildFinalCondition, resetRootCondition, e1, e2, h3]

/-- Closed instance of the C3 amended theorem: one ANY clause joined with
a real comparison by `AND`, hypotheses discharged. -/
theorem any_heuristic_uses_preprocessed_text_witness :
    (preprocessAnyOperator "ANY(Tags) = \x27x\x27 AND Active = true" =
        some ("true AND Active = true", [Condition.anyArrayContains "Tags" "x"]) ∧
      ("true AND Active = true" : String) ≠ "true" ∧
      ("true AND Active = true" : String) ≠ "1=1" ∧
      isAlwaysTrueCond (some (Condition.and Condition.alwaysTrue
        (Condition.equal "Active" "true"))) = false) ∧
    buildFinalCondition "true AND Active = true"
        [Condition.anyArrayContains "Tags" "x"]
        (Condition.and Condition.alwaysTrue (Condition.equal "Active" "true")) =
      some (Condition.and (Condition.anyArrayContains "Tags" "x")
        (Condition.and Condition.alwaysTrue (Condition.equal "Active" "true"))) :=
  ⟨⟨by decide, by decide, by decide, by decide⟩,
    (any_heuristic_uses_preprocessed_text "ANY(Tags) = \x27x\x27 AND Active = true"
      "true AND Active = true" (Condition.anyArrayContains "Tags" "x") []
      (Condition.and Condition.alwaysTrue (Condition.equal "Active" "true"))
      (by decide) (by decide) (by decide) (by decide)).trans (by decide)⟩

/-- Claim C10: whenever preprocessing extracts two or more ANY clauses, the
final condition always combines them with left-associated And — whatever
connectives or parentheses the original text used; the combined ANY
condition is then either kept alone or joined to the parsed root. -/
theorem any_conditions_combined_with_and
    (orig processed : String) (a b : Condition) (rest : List Condition)
    (parsedRoot : Condition)
    (_hpre : preprocessAnyOperator orig = some (processed, a :: b :: rest)) :
    ∃ g : Condition → Condition,
      (g = id ∨ g = (fun c => Condition.and c parsedRoot) ∨
        g = (fun c => Condition.or c parsedRoot)) ∧
      buildFinalCondition processed (a :: b :: rest) parsedRoot =
        some (g ((b :: rest).foldl Condition.and a)) := by
  simp only [buildFinalCondition]
  cases hC : (processed == "true" || processed == "1=1" ||
      isAlwaysTrueCond (resetRootCondition processed (a :: b :: rest) parsedRoot)) with
  | true =>
    exact ⟨id, Or.inl rfl, by simp⟩
  | false =>
    have hlen : 0 < (a :: b :: rest).length := by simp
    simp only [Bool.false_eq_true, if_false, if_pos hlen]
    cases hA : strHasSub processed " AND " with
    | true =>
      refine ⟨fun c => Condition.and c parsedRoot, Or.inr (Or.inl rfl), ?_⟩
      simp
    | false =>
      cases hO : strHasSub processed " OR " with
      | true =>
        refine ⟨fun c => Condition.or c parsedRoot, Or.inr (Or.inr rfl), ?_⟩
        simp
      | false =>
        refine ⟨id, Or.inl rfl, ?_⟩
        simp

/-- Closed instance of the C10 theorem: two ANY clauses joined by `OR` in
the original text are still combined with And, hypothesis discharged. -/
theorem any_conditions_combined_with_and_witness :
    preprocessAnyOperator "ANY(Tags) = \x27x\x27 OR ANY(Skills) = \x27y\x27" =
        some ("true OR true",
          [Condition.anyArrayContains "Tags" "x",
            Condition.anyArrayContains "Skills" "y"]) ∧
      ∃ g : Condition → Condition,
        (g = id ∨
          g = (fun c => Condition.and c (Condition.or Condition.alwaysTrue
            Condition.alwaysTrue)) ∨
          g = (fun c => Condition.or c (Condition.or Condition.alwaysTrue
            Condition.alwaysTrue))) ∧
        buildFinalCondition "true OR true"
            [Condition.anyArrayContains "Tags" "x",
              Condition.anyArrayContains "Skills" "y"]
            (Condition.or Condition.alwaysTrue Condition.alwaysTrue) =
          some (g ([Condition.anyArrayContains "Skills" "y"].foldl
            Condition.and (Condition.anyArrayContains "Tags" "x"))) :=
  ⟨by decide,
    any_conditions_combined_with_and
      "ANY(Tags) = \x27x\x27 OR ANY(Skills) = \x27y\x27" "true OR true"
      (Condition.anyArrayContains "Tags" "x")
      (Condition.anyArrayContains "Skills" "y") []
      (Condition.or Condition.alwaysTrue Condition.alwaysTrue) (by decide)⟩

end RQL
